import Mathlib

/-!
Verification of the kernel-installer build/install orchestration pipeline.

This file gives a shallow embedding, in Lean, of the core logic of the
`kernel_installer_gui` Python package: the profile application text
transformation (`core/profiles.py`), the streaming command runner
(`utils/system.py`), the bootloader / initramfs detection chains
(`core/distro.py`), and the build pipeline control flow
(`core/kernel.py`), together with theorems about these definitions.

File contents and external inputs are modelled at the character level
(`List Char`), so that every definition is executable and every concrete
evaluation can be checked by `decide` or `rfl`.  External processes are
modelled by oracles: an exit code for each invoked command, plus a
cancellation schedule, threaded through the control flow exactly as the
Python code threads its own checks.
-/

namespace KernelInstaller

/-- Character strings, modelled as lists of characters (`str` in the source). -/
abbrev Chars := List Char

/-! ### Character-string utilities

These model the Python `str` methods used by the source:
`strip`, `split('=', 1)`, `replace`, `casefold`, splitting file content
into lines, and the lexicographic ordering used by `sorted`. -/

/-- Left part of Python `str.strip`: drop leading whitespace. -/
def trimLeftChars (cs : Chars) : Chars := cs.dropWhile Char.isWhitespace

/-- Right part of Python `str.strip`: drop trailing whitespace. -/
def rtrimChars (cs : Chars) : Chars := (cs.reverse.dropWhile Char.isWhitespace).reverse

/-- Python `str.strip`: drop leading and trailing whitespace. -/
def trimChars (cs : Chars) : Chars := rtrimChars (trimLeftChars cs)

/-- Python `line.split('=', 1)` when `'=' in line`: split at the first `=`.
Returns `none` when the string has no `=`. -/
def splitFirstEq : Chars → Option (Chars × Chars)
  | [] => none
  | c :: rest =>
    if c = '=' then some ([], rest)
    else
      match splitFirstEq rest with
      | some (k, v) => some (c :: k, v)
      | none => none

/-- Split file content at newline characters.  Models how `readlines`
presents a file to a per-line loop; a trailing empty segment (for content
ending in a newline) is inert for every consumer in this file. -/
def splitNl : Chars → List Chars
  | [] => [[]]
  | c :: rest =>
    if c = '\n' then [] :: splitNl rest
    else
      match splitNl rest with
      | [] => [[c]]
      | l :: ls => (c :: l) :: ls

/-- Fuelled kernel of `replaceAll` below; the fuel is an upper bound on the
number of characters consumed, so `replaceAll` runs it with the input
length. -/
def replaceAllF (pat rep : Chars) : Nat → Chars → Chars
  | _, [] => []
  | 0, cs => cs
  | fuel + 1, c :: rest =>
    if pat.isPrefixOf (c :: rest) ∧ 0 < pat.length then
      rep ++ replaceAllF pat rep fuel ((c :: rest).drop pat.length)
    else
      c :: replaceAllF pat rep fuel rest

/-- Python `str.replace(pat, rep)` for a non-empty pattern: replace every
non-overlapping occurrence, scanning left to right.  (The source only ever
calls it with the non-empty patterns `"# "` and `" is not set"`.) -/
def replaceAll (pat rep cs : Chars) : Chars := replaceAllF pat rep cs.length cs

/-- Lexicographic order on character strings by code point, the order Python
uses to compare `str` keys in `sorted`. -/
def lexLe : Chars → Chars → Bool
  | [], _ => true
  | _ :: _, [] => false
  | a :: as, b :: bs => if a < b then true else if a = b then lexLe as bs else false

/-- Python's ordering on `(key, value)` pairs as produced by
`sorted(config.items())`: by key, ties broken by value (keys of a dict are
distinct, so the tie-break never fires there). -/
def pairLe (x y : Chars × Chars) : Bool :=
  if x.1 = y.1 then lexLe x.2 y.2 else lexLe x.1 y.1

/-- Insert into a list sorted by `pairLe`. -/
def insertSorted (x : Chars × Chars) : List (Chars × Chars) → List (Chars × Chars)
  | [] => [x]
  | y :: t => if pairLe x y then x :: y :: t else y :: insertSorted x t

/-- Model of Python `sorted(config.items())` (insertion sort; any sort
agreeing with the total order produces the same list). -/
def sortPairs (l : List (Chars × Chars)) : List (Chars × Chars) :=
  l.foldr insertSorted []

/-- Model of Python dict assignment `d[k] = v`: replace the binding in
place if the key is present, else append the new binding (insertion
order). -/
def insertAL : List (Chars × Chars) → Chars → Chars → List (Chars × Chars)
  | [], k, v => [(k, v)]
  | (k', v') :: t, k, v =>
    if k' = k then (k, v) :: t else (k', v') :: insertAL t k v

/-- Model of Python dict lookup `d.get(k)`. -/
def lookupAL (k : Chars) : List (Chars × Chars) → Option Chars
  | [] => none
  | (k', v) :: t => if k' = k then some v else lookupAL k t

/-- The keys of an association list are distinct (invariant of a Python
dict). -/
def nodupKeys (l : List (Chars × Chars)) : Prop := (l.map Prod.fst).Nodup

/-- Python `sub in s`: substring containment. -/
def containsSub (pat : Chars) : Chars → Bool
  | [] => pat.isPrefixOf ([] : Chars)
  | c :: rest => pat.isPrefixOf (c :: rest) || containsSub pat rest

/-- Python `str.casefold` restricted to the ASCII range, as applied to
kernel version strings. -/
def casefoldChars (cs : Chars) : Chars := cs.map Char.toLower

/-! ### `core/profiles.py`: `KernelProfile` and `apply_to_config` -/

/-- `ProfileType` from `core/profiles.py`. -/
inductive ProfileType where
  | GAMING
  | AUDIO_VIDEO
  | MINIMAL
  | HARDWARE_OPTIMIZED
  | CUSTOM
deriving DecidableEq, Repr

/-- `KernelProfile` dataclass from `core/profiles.py`.  `config_options` is
a Python dict (insertion-ordered association list with distinct keys);
`modules_to_disable` a list of module names. -/
structure KernelProfile where
  id : ProfileType
  name : Chars
  suffix : Chars
  config_options : List (Chars × Chars)
  modules_to_disable : List Chars
deriving DecidableEq, Repr

/-- One iteration of the parsing loop in `apply_to_config`
(`core/profiles.py` lines 50-59): strip the line; if it starts with
`CONFIG_`, either split `KEY=value` at the first `=`, or, for a line with
no `=` ending in ` is not set`, strip the markers and record value `n`.
(A standard `# KEY is not set` line starts with `#`, not `CONFIG_`, and is
therefore skipped.) -/
def parseConfigLine (config : List (Chars × Chars)) (rawLine : Chars) : List (Chars × Chars) :=
  let line := trimChars rawLine
  if "CONFIG_".data.isPrefixOf line then
    match splitFirstEq line with
    | some (k, v) => insertAL config k v
    | none =>
      if " is not set".data.isSuffixOf line then
        insertAL config (replaceAll " is not set".data [] (replaceAll "# ".data [] line)) "n".data
      else config
  else config

/-- The dict of existing options built by `apply_to_config` from the file
content (`core/profiles.py` lines 45-59). -/
def parseConfig (content : Chars) : List (Chars × Chars) :=
  (splitNl content).foldl parseConfigLine []

/-- Serialization of one dict entry by `apply_to_config`
(`core/profiles.py` lines 71-75): value `n` is written as the comment
form, any other value as `KEY=value`; each written line ends in a
newline. -/
def configLineFor (kv : Chars × Chars) : Chars :=
  if kv.2 = "n".data then "# ".data ++ kv.1 ++ " is not set\n".data
  else kv.1 ++ "=".data ++ kv.2 ++ "\n".data

/-- The overlaid dict built by `apply_to_config`: existing options,
then the profile's `config_options`, then `CONFIG_<module> = n` for every
module to disable (`core/profiles.py` lines 61-67). -/
def overlayConfig (p : KernelProfile) (config : List (Chars × Chars)) : List (Chars × Chars) :=
  let config := p.config_options.foldl (fun c kv => insertAL c kv.1 kv.2) config
  p.modules_to_disable.foldl (fun c m => insertAL c ("CONFIG_".data ++ m) "n".data) config

/-- `KernelProfile.apply_to_config` (`core/profiles.py` lines 38-75) as a
text transformation: parse the existing config, overlay the profile's
options and disabled modules, and write the entries back sorted by key. -/
def apply_to_config (p : KernelProfile) (content : Chars) : Chars :=
  let config := overlayConfig p (parseConfig content)
  ((sortPairs config).map configLineFor).flatten

/-- The set of keys written by the profile overlay: override keys plus
`CONFIG_`-prefixed disabled modules. -/
def ovKeys (p : KernelProfile) : List Chars :=
  p.config_options.map Prod.fst ++ p.modules_to_disable.map (fun m => "CONFIG_".data ++ m)

/-! ### `KernelProfile.detect_hardware_optimizations` -/

/-- The modules imported at the top of `core/profiles.py`
(`from dataclasses import ...`, `from enum import ...`,
`from typing import ...`).  Notably `os` is absent, although line 127 of
the file evaluates `os.path.exists`. -/
def profiles_py_imports : List String := ["dataclasses", "enum", "typing"]

/-- The hardware state probed by `detect_hardware_optimizations`:
the text of `/proc/cpuinfo` (`none` when reading it raises), the
(lower-cased) output of `lspci`, and whether `/dev/nvme0` exists. -/
structure HWEnv where
  cpuinfo : Option Chars
  lspci : Chars
  nvme0Exists : Bool

/-- The GPU branch of `detect_hardware_optimizations`
(`core/profiles.py` lines 101-108). -/
def gpuOptions (lspci : Chars) : List (Chars × Chars) :=
  if containsSub "nvidia".data lspci then
    [("CONFIG_FB_NVIDIA".data, "y".data)]
  else if containsSub "amd".data lspci || containsSub "ati".data lspci then
    [("CONFIG_DRM_AMDGPU".data, "y".data), ("CONFIG_DRM_AMDGPU_SI".data, "y".data),
     ("CONFIG_DRM_AMDGPU_CIK".data, "y".data)]
  else if containsSub "intel".data lspci then
    [("CONFIG_DRM_I915".data, "y".data)]
  else []

/-- The virtualization branch of `detect_hardware_optimizations`
(`core/profiles.py` lines 111-124). -/
def virtOptions (lspci : Chars) : List (Chars × Chars) :=
  if containsSub "virtio".data lspci || containsSub "qemu".data lspci then
    [("CONFIG_VIRTIO".data, "y".data), ("CONFIG_VIRTIO_PCI".data, "y".data),
     ("CONFIG_VIRTIO_BLK".data, "y".data), ("CONFIG_VIRTIO_NET".data, "y".data),
     ("CONFIG_HYPERVISOR_GUEST".data, "y".data)]
  else if containsSub "vmware".data lspci then
    [("CONFIG_VMWARE_PVSCSI".data, "y".data), ("CONFIG_VMXNET3".data, "y".data),
     ("CONFIG_HYPERVISOR_GUEST".data, "y".data), ("CONFIG_VMWARE_BALLOON".data, "y".data)]
  else if containsSub "virtualbox".data lspci || containsSub "vbox".data lspci then
    [("CONFIG_DRM_VBOXVIDEO".data, "y".data), ("CONFIG_HYPERVISOR_GUEST".data, "y".data)]
  else []

/-- `KernelProfile.detect_hardware_optimizations` (`core/profiles.py`
lines 77-134).  The base options are set before the `try` block; inside
it, a raised exception at any point abandons the remaining detections and
returns the options accumulated so far (one `except` wraps the whole
block).  Reading `/proc/cpuinfo` can raise; `lspci` output is obtained via
`run_command` and cannot; the NVMe step evaluates `os.path.exists` with
`os` not imported in this module, which raises `NameError` whenever it is
reached. -/
def detect_hardware_optimizations (env : HWEnv) : List (Chars × Chars) :=
  let options := [("CONFIG_PREEMPT".data, "y".data), ("CONFIG_HZ_1000".data, "y".data),
                  ("CONFIG_HZ".data, "1000".data)]
  match env.cpuinfo with
  | none => options
  | some _ =>
    let options := (gpuOptions env.lspci).foldl (fun c kv => insertAL c kv.1 kv.2) options
    let options := (virtOptions env.lspci).foldl (fun c kv => insertAL c kv.1 kv.2) options
    if "os" ∈ profiles_py_imports then
      if env.nvme0Exists then
        (([("CONFIG_NVME_CORE".data, "y".data), ("CONFIG_BLK_DEV_NVME".data, "y".data)] :
            List (Chars × Chars))).foldl (fun c kv => insertAL c kv.1 kv.2) options
      else options
    else options

/-! ### `utils/system.py`: the streaming command runner

`run_command_with_callback` spawns the command, writes a header line to
the persistent build log, and then loops over the child's output lines.
Each iteration first polls `stop_check`: on a truthy result it terminates
the child, appends a cancellation marker to the log, and returns `-1`;
otherwise it logs the line and feeds it to `line_callback`.  When the
output ends, it waits and returns the child's own exit code. -/

/-- The names defined at top level in `utils/system.py` (its `def`
statements). -/
def utils_system_defs : List String :=
  ["get_cpu_count", "run_command", "run_command_with_callback", "run_privileged",
   "reboot_system", "get_home_directory", "get_build_directory", "ensure_directory",
   "get_load_average"]

/-- The names `core/kernel.py` imports from `..utils.system`
(`core/kernel.py` lines 19-23). -/
def kernel_py_utils_system_imports : List String :=
  ["run_command", "run_command_with_callback", "run_privileged",
   "run_privileged_with_callback", "get_build_directory", "ensure_directory",
   "get_cpu_count"]

/-- The header `run_command_with_callback` writes to the build log for a
command (`utils/system.py` line 70). -/
def logHeaderFor (cmd : Chars) : Chars := "--- Running command: ".data ++ cmd ++ " ---".data

/-- The cancellation marker appended to the build log
(`utils/system.py` line 77). -/
def cancelMarker : Chars := "!!! COMMAND CANCELLED BY USER !!!".data

/-- Result of a (modelled) `run_command_with_callback` call: the returned
exit code, the lines appended to the build log, whether the child was sent
a termination signal, and the lines handed to `line_callback`. -/
structure RunResult where
  exitCode : Int
  log : List Chars
  terminated : Bool
  callbackLines : List Chars
deriving DecidableEq, Repr

/-- The output loop of `run_command_with_callback`
(`utils/system.py` lines 74-91).  `output` is the sequence of lines the
child writes; `stopCheck i` is the value `stop_check()` returns at the
`i`-th poll (one poll per line read, before the line is processed);
`naturalExit` is the child's own exit code, returned by `process.wait()`
when the output is exhausted without cancellation. -/
def runLoop (stopCheck : Option (Nat → Bool)) (naturalExit : Int) :
    List Chars → Nat → List Chars → List Chars → RunResult
  | [], _, log, cbs => ⟨naturalExit, log, false, cbs⟩
  | l :: rest, i, log, cbs =>
    if (stopCheck.map (fun f => f i)).getD false then
      ⟨-1, log ++ [cancelMarker], true, cbs⟩
    else
      runLoop stopCheck naturalExit rest (i + 1) (log ++ [l]) (cbs ++ [l])

/-- `run_command_with_callback` (`utils/system.py` lines 40-91), as a
function of the command, the child's output lines and natural exit code,
and the polled `stop_check`. -/
def run_command_with_callback (cmd : Chars) (output : List Chars) (naturalExit : Int)
    (stopCheck : Option (Nat → Bool)) : RunResult :=
  runLoop stopCheck naturalExit output 0 [logHeaderFor cmd] []

/-! ### `core/distro.py`: environment detection -/

/-- `DistroFamily` from `core/distro.py`. -/
inductive DistroFamily where
  | DEBIAN
  | UBUNTU
  | FEDORA
  | ARCH
  | MANDRIVA
  | UNKNOWN
deriving DecidableEq, Repr

/-- `Bootloader` from `core/distro.py`. -/
inductive Bootloader where
  | GRUB
  | SYSTEMD_BOOT
  | REFIND
  | LILO
  | SYSLINUX
  | UNKNOWN
deriving DecidableEq, Repr

/-- `InitramfsTool` from `core/distro.py`. -/
inductive InitramfsTool where
  | INITRAMFS_TOOLS
  | DRACUT
  | MKINITCPIO_TOOL
  | UNKNOWN
deriving DecidableEq, Repr

/-- The filesystem and PATH state probed by
`DistroDetector.detect_bootloader`. -/
structure BootEnv where
  systemdBootEfi : Bool
  bootx64Efi : Bool
  loaderConf : Bool
  refindEfiDir : Bool
  refindInstallOnPath : Bool
  refindLinuxConf : Bool
  grubCfg : Bool
  grub2Cfg : Bool
  etcDefaultGrub : Bool
  syslinuxDir : Bool
  extlinuxDir : Bool
  liloConf : Bool

/-- `DistroDetector.detect_bootloader` (`core/distro.py` lines 153-191).
The Python method assigns `self._bootloader` in an `if`/`elif` chain and
returns it; in the branch where `refind-install` is on the PATH but
`/boot/refind_linux.conf` is absent, no assignment happens and the method
returns `None` — modelled here by `Option Bootloader`. -/
def detect_bootloader (e : BootEnv) : Option Bootloader :=
  if e.systemdBootEfi then some .SYSTEMD_BOOT
  else if e.bootx64Efi ∧ e.loaderConf then some .SYSTEMD_BOOT
  else if e.refindEfiDir then some .REFIND
  else if e.refindInstallOnPath then
    (if e.refindLinuxConf then some .REFIND else none)
  else if e.grubCfg ∨ e.grub2Cfg ∨ e.etcDefaultGrub then some .GRUB
  else if e.syslinuxDir ∨ e.extlinuxDir then some .SYSLINUX
  else if e.liloConf then some .LILO
  else some .GRUB

/-- The filesystem and PATH state probed by
`DistroDetector.detect_initramfs_tool`. -/
structure InitramfsEnv where
  dracutOnPath : Bool
  dracutConf : Bool
  dracutConfDDir : Bool
  lsinitrdListModulesOk : Bool
  mkinitcpioOnPath : Bool
  mkinitcpioConf : Bool
  updateInitramfsOnPath : Bool
  initramfsToolsDir : Bool
  family : DistroFamily

/-- `DistroDetector.detect_initramfs_tool` (`core/distro.py` lines
193-233): dracut (config file, config dir, or a dracut-readable initramfs
via `lsinitrd --list-modules`), then mkinitcpio, then initramfs-tools,
then a fallback on the distro family in which only `ARCH` and `FEDORA`
have dedicated branches. -/
def detect_initramfs_tool (e : InitramfsEnv) : InitramfsTool :=
  let r : Option InitramfsTool :=
    if e.dracutOnPath then
      if e.dracutConf ∨ e.dracutConfDDir then some .DRACUT
      else if e.lsinitrdListModulesOk then some .DRACUT
      else none
    else none
  let r := if r = none ∧ e.mkinitcpioOnPath ∧ e.mkinitcpioConf then some .MKINITCPIO_TOOL else r
  let r := if r = none ∧ e.updateInitramfsOnPath ∧ e.initramfsToolsDir then
      some .INITRAMFS_TOOLS else r
  match r with
  | some t => t
  | none =>
    match e.family with
    | .ARCH => .MKINITCPIO_TOOL
    | .FEDORA => .DRACUT
    | _ => .INITRAMFS_TOOLS

/-! ### `core/kernel.py`: install history -/

/-- `InstalledKernel` dataclass from `core/kernel.py`. -/
structure InstalledKernel where
  version : Chars
  profile : Chars
  installed_date : Chars
deriving DecidableEq, Repr

/-- `KernelManager._save_to_history` (`core/kernel.py` lines 686-728) on
the record list it persists: starting from the previously stored records
`old`, drop every record whose version equals the new full version
case-insensitively, prepend the new record, and keep the first 20. -/
def _save_to_history (old : List InstalledKernel) (fullVersion profileName date : Chars) :
    List InstalledKernel :=
  let history := old.filter (fun k => ¬ casefoldChars k.version = casefoldChars fullVersion)
  let history := ⟨fullVersion, profileName, date⟩ :: history
  history.take 20

/-! ### `core/kernel.py`: the build/install pipeline

The pipeline methods are modelled as state transformers over `PState`.
External commands are oracles in `PipelineEnv`: each cancellable command
has an exit code, and `cancelDuring` names the command during whose run
the user's cancellation request arrives (the GUI thread sets
`_cancel_requested`, which the runner polls as `stop_check`).  A command
run while the flag is already set, or during which it becomes set, returns
the runner's `-1` sentinel and leaves the flag set. -/

/-- The external commands of the pipeline that are run with a
`stop_check`. -/
inductive Stage where
  | download
  | extract
  | build
  | modules
  | install
deriving DecidableEq, Repr

/-- Oracle for one pipeline run: distro family, exit codes of the external
commands, whether extraction left a `Makefile`, whether the build
directory could be created, the cancellation schedule, and the
caller-supplied cleanup flag of `full_install`. -/
structure PipelineEnv where
  family : DistroFamily
  ensureDirOk : Bool
  wgetExit : Int
  tarExit : Int
  makefilePresent : Bool
  buildExit : Int
  modulesExit : Int
  installExit : Int
  cancelDuring : Option Stage
  cleanupAfterSuccess : Bool

/-- Mutable pipeline state: the `_cancel_requested` flag, whether the
build workspace directory exists, and how many times
`cleanup_build_files` has run. -/
structure PState where
  cancelRequested : Bool
  buildDirExists : Bool
  cleanupCalls : Nat
deriving DecidableEq, Repr

/-- `KernelManager.cleanup_build_files` (`core/kernel.py` lines 797-805):
remove the build directory. -/
def cleanup_build_files (st : PState) : PState :=
  { st with buildDirExists := false, cleanupCalls := st.cleanupCalls + 1 }

/-- Run one cancellable external command: if `_cancel_requested` is
already set, or the cancellation request arrives during this command, the
streaming runner returns its `-1` sentinel and the flag is (or stays) set;
otherwise the command's own exit code is returned. -/
def runCancellable (env : PipelineEnv) (st : PState) (here : Stage) (exitCode : Int) :
    Int × PState :=
  if st.cancelRequested ∨ env.cancelDuring = some here then
    (-1, { st with cancelRequested := true })
  else
    (exitCode, st)

/-- `KernelManager.download_kernel` (`core/kernel.py` lines 215-297):
ensure the build directory, clear stale content inside it, download with
`wget` (cancellable), extract with `tar` (cancellable), and verify that
the unpacked tree has a `Makefile`. -/
def download_kernel (env : PipelineEnv) (st : PState) : Bool × PState :=
  if ¬env.ensureDirOk then (false, st)
  else
    let st := { st with buildDirExists := true }
    let (code, st) := runCancellable env st .download env.wgetExit
    if st.cancelRequested then (false, st)
    else if code ≠ 0 then (false, st)
    else
      let (code2, st) := runCancellable env st .extract env.tarExit
      if st.cancelRequested then (false, st)
      else if code2 ≠ 0 then (false, st)
      else if ¬env.makefilePresent then (false, st)
      else (true, st)

/-- `KernelManager.configure_kernel` (`core/kernel.py` lines 299-377):
seeds and patches the configuration through a sequence of
non-cancellable commands and returns `True` unconditionally. -/
def configure_kernel (_env : PipelineEnv) (st : PState) : Bool × PState :=
  (true, st)

/-- `KernelManager.build_kernel` (`core/kernel.py` lines 379-502): run the
family-specific build command (cancellable).  If cancellation was
observed, remove the build workspace and fail; on a non-zero exit code,
report the error and fail; for the Arch family, additionally build
modules (cancellable, but with no cleanup on its cancellation path). -/
def build_kernel (env : PipelineEnv) (st : PState) : Bool × PState :=
  let (code, st) := runCancellable env st .build env.buildExit
  if st.cancelRequested then
    (false, cleanup_build_files st)
  else if code ≠ 0 then
    (false, st)
  else if env.family = .ARCH then
    let (code2, st) := runCancellable env st .modules env.modulesExit
    if st.cancelRequested then (false, st)
    else if code2 ≠ 0 then (false, st)
    else (true, st)
  else (true, st)

/-- `KernelManager.install_kernel` (`core/kernel.py` lines 504-621): the
combined privileged command (cancellable); on success the install is
recorded in history. -/
def install_kernel (env : PipelineEnv) (st : PState) : Bool × PState :=
  let (code, st) := runCancellable env st .install env.installExit
  if code ≠ 0 then (false, st) else (true, st)

/-- The `if self._is_cancelled(): self.cleanup_build_files()` epilogue
`full_install` runs when a stage returns `False`
(`core/kernel.py` lines 641-674). -/
def failEpilogue (st : PState) : Bool × PState :=
  if st.cancelRequested then (false, cleanup_build_files st) else (false, st)

/-- `KernelManager.full_install` (`core/kernel.py` lines 623-680): reset
the cancellation flag, then run download, configure, build and install in
order; after each stage, a `False` result or a set cancellation flag
cleans up (only when the flag is set) and returns `False`; on success the
workspace is cleaned only when the caller asked for it. -/
def full_install (env : PipelineEnv) (st : PState) : Bool × PState :=
  let st := { st with cancelRequested := false }
  let (ok, st) := download_kernel env st
  if ¬ok then failEpilogue st
  else if st.cancelRequested then (false, cleanup_build_files st)
  else
    let (ok, st) := configure_kernel env st
    if ¬ok then failEpilogue st
    else if st.cancelRequested then (false, cleanup_build_files st)
    else
      let (ok, st) := build_kernel env st
      if ¬ok then failEpilogue st
      else if st.cancelRequested then (false, cleanup_build_files st)
      else
        let (ok, st) := install_kernel env st
        if ¬ok then failEpilogue st
        else if env.cleanupAfterSuccess then (true, cleanup_build_files st)
        else (true, st)

/-! ### Claims about the pipeline control flow (C1, C3) -/

/-- Claim C1, counterexample: on the Debian family, a build command exit
code of 2 with no cancellation makes `build_kernel` propagate the failure
with the build workspace still present and `cleanup_build_files` never
invoked — a non-zero build exit does *not* trigger build-workspace
cleanup. -/
theorem build_kernel_failure_no_cleanup_cex :
    build_kernel ⟨.DEBIAN, true, 0, 0, true, 2, 0, 0, none, false⟩ ⟨false, true, 0⟩ =
      (false, ⟨false, true, 0⟩) := by decide

/-- Claim C1, amended: `build_kernel` removes the build workspace when
cancellation is observed during the build command, but on a non-zero exit
code of the build command without cancellation it propagates the failure
upward leaving the workspace untouched (no cleanup). -/
theorem build_kernel_cleanup_on_cancel_not_on_failure (env : PipelineEnv) (st : PState)
    (hflag : st.cancelRequested = false) :
    (env.cancelDuring = some .build →
      (build_kernel env st).1 = false ∧
      (build_kernel env st).2.buildDirExists = false ∧
      (build_kernel env st).2.cleanupCalls = st.cleanupCalls + 1) ∧
    (env.cancelDuring ≠ some .build → env.buildExit ≠ 0 →
      (build_kernel env st).1 = false ∧ (build_kernel env st).2 = st) := by
  constructor
  · intro hc
    simp [build_kernel, runCancellable, cleanup_build_files, hflag, hc]
  · intro hc hx
    simp [build_kernel, runCancellable, hflag, hc, hx]

/-- Witness for `build_kernel_cleanup_on_cancel_not_on_failure` at a
concrete state. -/
theorem build_kernel_cleanup_on_cancel_not_on_failure_witness :
    (⟨false, true, 0⟩ : PState).cancelRequested = false ∧
    (build_kernel ⟨.DEBIAN, true, 0, 0, true, 0, 0, 0, some .build, false⟩
        ⟨false, true, 0⟩).2.buildDirExists = false :=
  ⟨by decide,
    ((build_kernel_cleanup_on_cancel_not_on_failure
        ⟨.DEBIAN, true, 0, 0, true, 0, 0, 0, some .build, false⟩
        ⟨false, true, 0⟩ (by decide)).1 (by decide)).2.1⟩

/-- Claim C3, counterexample: a run cancelled during the build stage and a
run whose build command merely fails return the *same* value (`False`)
from `full_install` — the cancelled result is not distinct from the failed
result. -/
theorem full_install_cancel_result_indistinct_cex :
    (full_install ⟨.DEBIAN, true, 0, 0, true, 0, 0, 0, some .build, false⟩
        ⟨false, true, 0⟩).1 =
    (full_install ⟨.DEBIAN, true, 0, 0, true, 2, 0, 0, none, false⟩
        ⟨false, true, 0⟩).1 := by decide

/-- Claim C3, amended: if cancellation is requested while the build stage
is running, `full_install` returns `False` — not the successful result,
but the same value an ordinary failure returns; the run is recognizable as
cancelled only through the manager's cancellation flag, which is left set
— and the build workspace directory has been removed by the time
`full_install` returns. -/
theorem full_install_cancel_during_build (env : PipelineEnv) (st : PState)
    (hdir : env.ensureDirOk = true) (hw : env.wgetExit = 0) (ht : env.tarExit = 0)
    (hm : env.makefilePresent = true) (hc : env.cancelDuring = some .build) :
    (full_install env st).1 = false ∧
    (full_install env st).2.buildDirExists = false ∧
    (full_install env st).2.cancelRequested = true := by
  simp [full_install, download_kernel, configure_kernel, build_kernel, failEpilogue,
    runCancellable, cleanup_build_files, hdir, hw, ht, hm, hc]

/-- Witness for `full_install_cancel_during_build` at a concrete
environment. -/
theorem full_install_cancel_during_build_witness :
    (⟨.DEBIAN, true, 0, 0, true, 0, 0, 0, some .build, false⟩ :
        PipelineEnv).ensureDirOk = true ∧
    (full_install ⟨.DEBIAN, true, 0, 0, true, 0, 0, 0, some .build, false⟩
        ⟨false, true, 0⟩).2.buildDirExists = false :=
  ⟨by decide,
    (full_install_cancel_during_build
      ⟨.DEBIAN, true, 0, 0, true, 0, 0, 0, some .build, false⟩ ⟨false, true, 0⟩
      (by decide) (by decide) (by decide) (by decide) (by decide)).2.1⟩

/-! ### Claims about the streaming runner (C2, C4) -/

/-- Claim C2: `core/kernel.py` imports `run_privileged_with_callback` from
`utils.system`, but `utils/system.py` defines no such name — the import
raises, so `install_kernel`'s privileged streaming call can never execute. -/
theorem run_privileged_with_callback_undefined :
    "run_privileged_with_callback" ∈ kernel_py_utils_system_imports ∧
    "run_privileged_with_callback" ∉ utils_system_defs := by decide

/-- Claim C4, counterexample: with a stop check that becomes true after
the first output line but a child that emits exactly one line and exits
with code 0, the check is never polled again: the call returns the child's
natural exit code (a success), sends no termination signal and appends no
cancellation marker. -/
theorem run_command_with_callback_single_line_cex :
    run_command_with_callback "make".data ["done".data] 0
        (some (fun i => decide (1 ≤ i))) =
      ⟨0, [logHeaderFor "make".data, "done".data], false, ["done".data]⟩ := by decide

/-- Claim C4, amended: when the cancel check is false at the first poll
and true at the second, and the child emits at least one further output
line after the first, the child is sent a termination signal, the
cancellation marker is appended to the build log, and the call returns the
`-1` sentinel — never the child's natural exit code. -/
theorem run_command_with_callback_cancel_after_first_line (cmd l0 l1 : Chars)
    (rest : List Chars) (naturalExit : Int) (f : Nat → Bool)
    (h0 : f 0 = false) (h1 : f 1 = true) :
    (run_command_with_callback cmd (l0 :: l1 :: rest) naturalExit (some f)).exitCode = -1 ∧
    (run_command_with_callback cmd (l0 :: l1 :: rest) naturalExit (some f)).terminated = true ∧
    cancelMarker ∈ (run_command_with_callback cmd (l0 :: l1 :: rest) naturalExit (some f)).log := by
  simp [run_command_with_callback, runLoop, h0, h1]

/-- Witness for `run_command_with_callback_cancel_after_first_line` at a
concrete stop check and output. -/
theorem run_command_with_callback_cancel_after_first_line_witness :
    (fun i => decide (1 ≤ i)) 0 = false ∧ (fun i => decide (1 ≤ i)) 1 = true ∧
    ((run_command_with_callback "make".data ["a".data, "b".data] 7
        (some (fun i => decide (1 ≤ i)))).exitCode = -1 ∧
     (run_command_with_callback "make".data ["a".data, "b".data] 7
        (some (fun i => decide (1 ≤ i)))).terminated = true ∧
     cancelMarker ∈ (run_command_with_callback "make".data ["a".data, "b".data] 7
        (some (fun i => decide (1 ≤ i)))).log) :=
  ⟨by decide, by decide,
    run_command_with_callback_cancel_after_first_line "make".data "a".data "b".data []
      7 (fun i => decide (1 ≤ i)) (by decide) (by decide)⟩

/-! ### Claims about environment detection (C8, C9) -/

/-- Claim C8, counterexample: in an environment where no initramfs tool is
found and the distro family is Mandriva, `detect_initramfs_tool` falls
back to initramfs-tools, not to dracut as claimed (only Arch and Fedora
have dedicated fallback branches). -/
theorem detect_initramfs_tool_mandriva_fallback_cex :
    detect_initramfs_tool ⟨false, false, false, false, false, false, false, false,
        .MANDRIVA⟩ = .INITRAMFS_TOOLS ∧
    (InitramfsTool.INITRAMFS_TOOLS ≠ .DRACUT) := by decide

/-- Claim C8, amended: `detect_initramfs_tool` checks the dracut signals
first (a dracut binary together with a dracut configuration or a
dracut-readable initramfs image), then an mkinitcpio configuration, then
an initramfs-tools configuration; when none of these is found it falls
back by distro family with Arch mapping to mkinitcpio, Fedora mapping to
dracut, and every other family — Mandriva included — mapping to
initramfs-tools. -/
theorem detect_initramfs_tool_spec (e : InitramfsEnv) :
    (e.dracutOnPath = true →
      (e.dracutConf = true ∨ e.dracutConfDDir = true ∨ e.lsinitrdListModulesOk = true) →
      detect_initramfs_tool e = .DRACUT) ∧
    ((e.dracutOnPath = false ∨
        (e.dracutConf = false ∧ e.dracutConfDDir = false ∧ e.lsinitrdListModulesOk = false)) →
      e.mkinitcpioOnPath = true → e.mkinitcpioConf = true →
      detect_initramfs_tool e = .MKINITCPIO_TOOL) ∧
    ((e.dracutOnPath = false ∨
        (e.dracutConf = false ∧ e.dracutConfDDir = false ∧ e.lsinitrdListModulesOk = false)) →
      (e.mkinitcpioOnPath = false ∨ e.mkinitcpioConf = false) →
      e.updateInitramfsOnPath = true → e.initramfsToolsDir = true →
      detect_initramfs_tool e = .INITRAMFS_TOOLS) ∧
    ((e.dracutOnPath = false ∨
        (e.dracutConf = false ∧ e.dracutConfDDir = false ∧ e.lsinitrdListModulesOk = false)) →
      (e.mkinitcpioOnPath = false ∨ e.mkinitcpioConf = false) →
      (e.updateInitramfsOnPath = false ∨ e.initramfsToolsDir = false) →
      detect_initramfs_tool e =
        (match e.family with
          | .ARCH => .MKINITCPIO_TOOL
          | .FEDORA => .DRACUT
          | _ => .INITRAMFS_TOOLS)) := by
  obtain ⟨d, dc, dcd, ls, mk, mkc, ui, uid, fam⟩ := e
  cases d <;> cases dc <;> cases dcd <;> cases ls <;> cases mk <;> cases mkc <;>
    cases ui <;> cases uid <;>
      simp [detect_initramfs_tool]

/-- Witness for `detect_initramfs_tool_spec` at concrete environments. -/
theorem detect_initramfs_tool_spec_witness :
    detect_initramfs_tool ⟨true, true, false, false, false, false, false, false,
        .DEBIAN⟩ = .DRACUT ∧
    detect_initramfs_tool ⟨false, false, false, false, false, false, false, false,
        .ARCH⟩ = .MKINITCPIO_TOOL :=
  ⟨(detect_initramfs_tool_spec ⟨true, true, false, false, false, false, false, false,
      .DEBIAN⟩).1 (by decide) (by decide),
   (detect_initramfs_tool_spec ⟨false, false, false, false, false, false, false, false,
      .ARCH⟩).2.2.2 (by decide) (by decide) (by decide)⟩

/-- Claim C9: with `refind-install` on the PATH but `/boot/refind_linux.conf`
absent, `detect_bootloader` falls through the whole probe chain without
assigning a result and returns `None` — even with a GRUB configuration
present — instead of the claimed GRUB default; the default is only reached
when the rEFInd PATH probe also fails. -/
theorem detect_bootloader_refind_path_none_cex :
    detect_bootloader ⟨false, false, false, false, true, false, true, false, false,
        false, false, false⟩ = none ∧
    detect_bootloader ⟨false, false, false, false, false, false, false, false, false,
        false, false, false⟩ = some .GRUB := by decide

/-! ### Claims about profile application and hardware probing (C5, C10) -/

/-- Claim C5: `apply_to_config` drops `# KEY is not set` lines: such a
line starts with `#`, so it fails the `startswith('CONFIG_')` guard and
never reaches the ` is not set` branch nested below it.  On a file with a
`CONFIG_FOO=y` line and a `# CONFIG_BAR is not set` line, a profile that
mentions neither key rewrites the file without the `CONFIG_BAR` line. -/
theorem apply_to_config_drops_not_set_lines :
    apply_to_config ⟨.CUSTOM, "Custom".data, "custom".data, [], []⟩
        "CONFIG_FOO=y\n# CONFIG_BAR is not set\n".data = "CONFIG_FOO=y\n".data := by decide

/-- Claim C10: failures inside `detect_hardware_optimizations` are not
isolated per detection.  `core/profiles.py` never imports `os`, so the
NVMe step raises `NameError` whenever it is reached and the NVMe override
is omitted even with `/dev/nvme0` present (first conjunct); a failure
reading `/proc/cpuinfo` aborts the whole `try` block, omitting the GPU
override that the very same `lspci` output otherwise produces (second and
third conjuncts). -/
theorem detect_hardware_optimizations_not_isolated :
    lookupAL "CONFIG_NVME_CORE".data
      (detect_hardware_optimizations ⟨some "flags : avx2".data, [], true⟩) = none ∧
    lookupAL "CONFIG_FB_NVIDIA".data
      (detect_hardware_optimizations ⟨none, "nvidia corporation".data, false⟩) = none ∧
    lookupAL "CONFIG_FB_NVIDIA".data
      (detect_hardware_optimizations ⟨some "flags".data, "nvidia corporation".data, false⟩) =
      some "y".data := by decide

/-! ### Claim about the install history (C7) -/

/-- No record surviving the same-version filter of `_save_to_history`
matches the new version case-insensitively, truncated or not. -/
theorem countP_filter_same_version (old : List InstalledKernel) (v : Chars) (n : Nat) :
    (List.take n (old.filter (fun k => ¬ casefoldChars k.version = casefoldChars v))).countP
      (fun k => decide (casefoldChars k.version = casefoldChars v)) = 0 := by
  rw [List.countP_eq_zero]
  intro a ha
  have h2 := List.of_mem_filter (List.mem_of_mem_take ha)
  simpa using h2

/-- Claim C7: after `_save_to_history`, the persisted record list contains
the new record exactly once (any previously stored record with the same
version, compared case-insensitively, is replaced, not duplicated), holds
at most 20 records regardless of how many were stored before, and has the
new record first. -/
theorem save_to_history_spec (old : List InstalledKernel) (v p d : Chars) :
    (_save_to_history old v p d).countP
        (fun k => decide (casefoldChars k.version = casefoldChars v)) = 1 ∧
    (_save_to_history old v p d).length ≤ 20 ∧
    (_save_to_history old v p d).head? = some ⟨v, p, d⟩ := by
  unfold _save_to_history
  rw [List.take_succ_cons]
  refine ⟨?_, ?_, rfl⟩
  · rw [List.countP_cons, countP_filter_same_version]
    simp
  · simp only [List.length_cons, List.length_take]
    omega

/-! ### Idempotence of `apply_to_config` (C6)

The development below culminates in `apply_to_config_idempotent` and the
counterexample `apply_to_config_not_idempotent_cex`.  The route: the
rewritten file is the serialization of a key-distinct association list in
sorted key order, so two maps with the same lookup function serialize to
the same bytes; it then suffices to show that parsing the first rewrite
and overlaying the profile again reproduces the first map's lookup
function, which holds exactly when every key the first rewrite serializes
in the `# KEY is not set` comment form is re-supplied by the profile. -/

/-- `lexLe` is total. -/
theorem lexLe_total (a b : Chars) : lexLe a b = true ∨ lexLe b a = true := by
  induction a generalizing b with
  | nil => left; rfl
  | cons x xs ih =>
    cases b with
    | nil => right; rfl
    | cons y ys =>
      rcases lt_trichotomy x y with h | h | h
      · left; simp [lexLe, h]
      · subst h
        rcases ih ys with h2 | h2
        · left; simp [lexLe, h2]
        · right; simp [lexLe, h2]
      · right; simp [lexLe, h]

/-- `lexLe` is antisymmetric. -/
theorem lexLe_antisymm (a b : Chars) (h1 : lexLe a b = true) (h2 : lexLe b a = true) :
    a = b := by
  induction a generalizing b with
  | nil =>
    cases b with
    | nil => rfl
    | cons y ys => simp [lexLe] at h2
  | cons x xs ih =>
    cases b with
    | nil => simp [lexLe] at h1
    | cons y ys =>
      rcases lt_trichotomy x y with h | h | h
      · have hyx : ¬ y < x := lt_asymm h
        have hne : y ≠ x := (ne_of_lt h).symm
        simp [lexLe, hyx, hne] at h2
      · subst h
        simp only [lexLe, lt_irrefl, if_neg (lt_irrefl x), if_pos rfl] at h1 h2
        rw [ih ys h1 h2]
      · have hxy : ¬ x < y := lt_asymm h
        have hne : x ≠ y := ne_of_gt h
        simp [lexLe, hxy, hne] at h1

/-- `lexLe` is transitive. -/
theorem lexLe_trans (a b c : Chars) (h1 : lexLe a b = true) (h2 : lexLe b c = true) :
    lexLe a c = true := by
  induction a generalizing b c with
  | nil => rfl
  | cons x xs ih =>
    cases b with
    | nil => simp [lexLe] at h1
    | cons y ys =>
      cases c with
      | nil => simp [lexLe] at h2
      | cons z zs =>
        rcases lt_trichotomy x y with hxy | hxy | hxy
        · rcases lt_trichotomy y z with hyz | hyz | hyz
          · simp [lexLe, lt_trans hxy hyz]
          · subst hyz; simp [lexLe, hxy]
          · have h3 : ¬ y < z := lt_asymm hyz
            have hne : y ≠ z := ne_of_gt hyz
            simp [lexLe, h3, hne] at h2
        · subst hxy
          simp only [lexLe, if_neg (lt_irrefl x), if_pos rfl] at h1
          rcases lt_trichotomy x z with hyz | hyz | hyz
          · simp [lexLe, hyz]
          · subst hyz
            simp only [lexLe, if_neg (lt_irrefl x), if_pos rfl] at h2 ⊢
            exact ih ys zs h1 h2
          · have h3 : ¬ x < z := lt_asymm hyz
            have hne : x ≠ z := ne_of_gt hyz
            simp [lexLe, h3, hne] at h2
        · have h3 : ¬ x < y := lt_asymm hxy
          have hne : x ≠ y := ne_of_gt hxy
          simp [lexLe, h3, hne] at h1

/-- `pairLe` is total. -/
theorem pairLe_total (a b : Chars × Chars) : pairLe a b = true ∨ pairLe b a = true := by
  unfold pairLe
  by_cases h : a.1 = b.1
  · rw [if_pos h, if_pos h.symm]
    exact lexLe_total a.2 b.2
  · rw [if_neg h, if_neg (fun h2 => h h2.symm)]
    exact lexLe_total a.1 b.1

/-- `pairLe` is antisymmetric. -/
theorem pairLe_antisymm (a b : Chars × Chars) (h1 : pairLe a b = true)
    (h2 : pairLe b a = true) : a = b := by
  unfold pairLe at h1 h2
  by_cases h : a.1 = b.1
  · simp only [h, if_pos rfl] at h1
    rw [if_pos h.symm] at h2
    have : a.2 = b.2 := lexLe_antisymm _ _ h1 h2
    exact Prod.ext h this
  · rw [if_neg h] at h1
    rw [if_neg (fun h2' : b.1 = a.1 => h h2'.symm)] at h2
    exact absurd (lexLe_antisymm _ _ h1 h2) h

/-- `pairLe` is transitive. -/
theorem pairLe_trans (a b c : Chars × Chars) (h1 : pairLe a b = true)
    (h2 : pairLe b c = true) : pairLe a c = true := by
  unfold pairLe at h1 h2 ⊢
  by_cases hab : a.1 = b.1 <;> by_cases hbc : b.1 = c.1
  · rw [if_pos hab] at h1
    rw [if_pos hbc] at h2
    rw [if_pos (hab.trans hbc)]
    exact lexLe_trans _ _ _ h1 h2
  · rw [if_neg (hab ▸ hbc)]
    rw [if_neg hbc] at h2
    exact hab ▸ h2
  · rw [if_neg (hbc ▸ hab)]
    rw [if_neg hab] at h1
    exact hbc ▸ h1
  · rw [if_neg hab] at h1
    rw [if_neg hbc] at h2
    by_cases hac : a.1 = c.1
    · exact absurd (lexLe_antisymm _ _ h1 (hac ▸ h2)) hab
    · rw [if_neg hac]
      exact lexLe_trans _ _ _ h1 h2

/-- The sorting relation used for serialization. -/
def pairRel (a b : Chars × Chars) : Prop := pairLe a b = true

instance : IsAntisymm (Chars × Chars) pairRel := ⟨pairLe_antisymm⟩

/-- `insertSorted` produces a permutation of consing. -/
theorem insertSorted_perm (x : Chars × Chars) (l : List (Chars × Chars)) :
    (insertSorted x l).Perm (x :: l) := by
  induction l with
  | nil => exact List.Perm.refl _
  | cons y t ih =>
    by_cases h : pairLe x y = true
    · simp [insertSorted, h]
    · simp only [insertSorted, if_neg h]
      exact (List.Perm.cons y ih).trans (List.Perm.swap x y t)

/-- `sortPairs` permutes its input. -/
theorem sortPairs_perm (l : List (Chars × Chars)) : (sortPairs l).Perm l := by
  induction l with
  | nil => exact List.Perm.refl _
  | cons x t ih =>
    exact (insertSorted_perm x (sortPairs t)).trans (List.Perm.cons x ih)

/-- `insertSorted` preserves sortedness. -/
theorem insertSorted_sorted (x : Chars × Chars) (l : List (Chars × Chars))
    (h : l.Sorted pairRel) : (insertSorted x l).Sorted pairRel := by
  induction l with
  | nil => simp [insertSorted, List.Sorted]
  | cons y t ih =>
    by_cases hxy : pairLe x y = true
    · rw [insertSorted, if_pos hxy]
      refine List.sorted_cons.mpr ⟨?_, h⟩
      intro b hb
      rcases List.mem_cons.mp hb with hb | hb
      · subst hb; exact hxy
      · exact pairLe_trans _ _ _ hxy ((List.sorted_cons.mp h).1 b hb)
    · rw [insertSorted, if_neg hxy]
      have hys : ∀ b ∈ t, pairRel y b := (List.sorted_cons.mp h).1
      refine List.sorted_cons.mpr ⟨?_, ih (List.sorted_cons.mp h).2⟩
      intro b hb
      have hb2 := (insertSorted_perm x t).mem_iff.mp hb
      rcases List.mem_cons.mp hb2 with hb3 | hb3
      · subst hb3
        rcases pairLe_total b y with hxy2 | hxy2
        · exact absurd hxy2 hxy
        · exact hxy2
      · exact hys b hb3

/-- `sortPairs` sorts. -/
theorem sortPairs_sorted (l : List (Chars × Chars)) : (sortPairs l).Sorted pairRel := by
  induction l with
  | nil => simp [sortPairs, List.Sorted]
  | cons x t ih => exact insertSorted_sorted x (sortPairs t) ih

/-- Two key-distinct association lists with the same lookup function sort
to the same list. -/
theorem sortPairs_eq_of_lookup_eq (l1 l2 : List (Chars × Chars))
    (h1 : nodupKeys l1) (h2 : nodupKeys l2)
    (hmem : ∀ x : Chars × Chars, x ∈ l1 ↔ x ∈ l2) : sortPairs l1 = sortPairs l2 := by
  have n1 : l1.Nodup := List.Nodup.of_map Prod.fst h1
  have n2 : l2.Nodup := List.Nodup.of_map Prod.fst h2
  have hperm : l1.Perm l2 := (List.perm_ext_iff_of_nodup n1 n2).mpr hmem
  exact List.eq_of_perm_of_sorted
    ((sortPairs_perm l1).trans (hperm.trans (sortPairs_perm l2).symm))
    (sortPairs_sorted l1) (sortPairs_sorted l2)

/-- Lookup after a dict assignment. -/
theorem lookupAL_insertAL (l : List (Chars × Chars)) (k v k' : Chars) :
    lookupAL k' (insertAL l k v) = if k = k' then some v else lookupAL k' l := by
  induction l with
  | nil => simp [insertAL, lookupAL]
  | cons y t ih =>
    by_cases h : y.1 = k
    · obtain ⟨y1, y2⟩ := y
      simp only at h
      subst h
      by_cases h2 : y1 = k'
      · subst h2; simp [insertAL, lookupAL]
      · simp [insertAL, lookupAL, h2]
    · obtain ⟨y1, y2⟩ := y
      simp only at h
      by_cases h2 : y1 = k'
      · subst h2
        have : ¬ k = y1 := fun hk => h hk.symm
        simp [insertAL, lookupAL, h, this]
      · simp [insertAL, lookupAL, h, h2, ih]

/-- The key list after a dict assignment: unchanged if the key was
present, extended by the key otherwise. -/
theorem keys_insertAL (l : List (Chars × Chars)) (k v : Chars) :
    (insertAL l k v).map Prod.fst =
      if k ∈ l.map Prod.fst then l.map Prod.fst else l.map Prod.fst ++ [k] := by
  induction l with
  | nil => simp [insertAL]
  | cons y t ih =>
    by_cases h : y.1 = k
    · subst h
      simp [insertAL]
    · have hne : ¬ k = y.1 := fun hk => h hk.symm
      by_cases h2 : k ∈ t.map Prod.fst
      · simp [insertAL, h, hne, h2, ih]
      · simp [insertAL, h, hne, h2, ih]

/-- A dict assignment preserves distinctness of keys. -/
theorem nodupKeys_insertAL (l : List (Chars × Chars)) (k v : Chars)
    (h : nodupKeys l) : nodupKeys (insertAL l k v) := by
  unfold nodupKeys at h ⊢
  rw [keys_insertAL]
  by_cases h2 : k ∈ l.map Prod.fst
  · rwa [if_pos h2]
  · rw [if_neg h2]
    rw [List.nodup_append]
    exact ⟨h, List.nodup_singleton k, by simpa using fun hx => h2 hx⟩

/-- Absent keys look up to `none`. -/
theorem lookupAL_eq_none_iff (l : List (Chars × Chars)) (k : Chars) :
    lookupAL k l = none ↔ k ∉ l.map Prod.fst := by
  induction l with
  | nil => simp [lookupAL]
  | cons y t ih =>
    by_cases h : y.1 = k
    · subst h; simp [lookupAL]
    · have hne : k ≠ y.1 := fun hk => h hk.symm
      simp [lookupAL, h, hne, ih]

/-- In a key-distinct association list, membership of a pair is lookup. -/
theorem mem_iff_lookupAL (l : List (Chars × Chars)) (k v : Chars) (h : nodupKeys l) :
    (k, v) ∈ l ↔ lookupAL k l = some v := by
  induction l with
  | nil => simp [lookupAL]
  | cons y t ih =>
    unfold nodupKeys at h
    rw [List.map_cons, List.nodup_cons] at h
    by_cases h2 : y.1 = k
    · obtain ⟨y1, y2⟩ := y
      simp only at h2
      subst h2
      constructor
      · intro hmem
        rcases List.mem_cons.mp hmem with hmem | hmem
        · have hv : v = y2 := congrArg Prod.snd hmem
          simp [lookupAL, hv]
        · exact absurd (List.mem_map_of_mem Prod.fst hmem) h.1
      · intro hl
        have hv : y2 = v := by simpa [lookupAL] using hl
        subst hv
        exact List.mem_cons_self _ _
    · obtain ⟨y1, y2⟩ := y
      simp only at h2
      have hne : (k, v) ≠ (y1, y2) := by
        intro hk
        exact h2 (congrArg Prod.fst hk).symm
      simp [lookupAL, h2, hne, ih h.2]

/-- The binding that wins for a key after a sequence of dict assignments:
the last assignment to that key, if any. -/
def ovLast (ps : List (Chars × Chars)) (k : Chars) : Option Chars :=
  (ps.reverse.find? (fun q => decide (q.1 = k))).map Prod.snd

/-- Lookup after folding dict assignments over a base dict. -/
theorem lookupAL_foldl_insertAL (ps : List (Chars × Chars)) (base : List (Chars × Chars))
    (k : Chars) :
    lookupAL k (ps.foldl (fun c kv => insertAL c kv.1 kv.2) base) =
      (ovLast ps k).or (lookupAL k base) := by
  induction ps generalizing base with
  | nil => simp [ovLast]
  | cons kv t ih =>
    rw [List.foldl_cons, ih]
    unfold ovLast
    rw [List.reverse_cons, List.find?_append]
    by_cases h : (t.reverse.find? (fun q => decide (q.1 = k))) = none
    · rw [h]
      simp only [Option.none_or, Option.map, lookupAL_insertAL]
      by_cases h2 : kv.1 = k
      · simp [List.find?, h2]
      · simp [List.find?, h2]
    · obtain ⟨w, hw⟩ := Option.ne_none_iff_exists'.mp h
      rw [hw]
      simp

/-- `ovLast` is `none` exactly when the key is never assigned. -/
theorem ovLast_eq_none_iff (ps : List (Chars × Chars)) (k : Chars) :
    ovLast ps k = none ↔ k ∉ ps.map Prod.fst := by
  unfold ovLast
  rw [Option.map_eq_none', List.find?_eq_none]
  constructor
  · intro h hk
    obtain ⟨kv, hkv, hfst⟩ := List.mem_map.mp hk
    exact h kv (List.mem_reverse.mpr hkv) (by simp [hfst])
  · intro h kv hkv hpred
    apply h
    rw [List.mem_map]
    exact ⟨kv, List.mem_reverse.mp hkv, of_decide_eq_true hpred⟩

/-- `ovLast` finds a pair of the list. -/
theorem ovLast_eq_some_mem (ps : List (Chars × Chars)) (k v : Chars)
    (h : ovLast ps k = some v) : (k, v) ∈ ps := by
  unfold ovLast at h
  rw [Option.map_eq_some'] at h
  obtain ⟨kv, hfind, hsnd⟩ := h
  have hmem := List.mem_reverse.mp (List.mem_of_find?_eq_some hfind)
  have hfst : kv.1 = k := by
    have h0 := List.find?_some hfind
    simpa using h0
  have : kv = (k, v) := by
    obtain ⟨a, b⟩ := kv
    simp only at hfst hsnd
    rw [hfst, hsnd]
  rwa [this] at hmem

/-- The override pairs of a profile, in assignment order: config options
first, then the disabled modules as `CONFIG_<module> = n`. -/
def ovPairs (p : KernelProfile) : List (Chars × Chars) :=
  p.config_options ++ p.modules_to_disable.map (fun m => ("CONFIG_".data ++ m, "n".data))

/-- `overlayConfig` is the fold of dict assignments over `ovPairs`. -/
theorem overlayConfig_eq_foldl (p : KernelProfile) (base : List (Chars × Chars)) :
    overlayConfig p base = (ovPairs p).foldl (fun c kv => insertAL c kv.1 kv.2) base := by
  unfold overlayConfig ovPairs
  rw [List.foldl_append, List.foldl_map]

/-- `ovKeys` is the key list of `ovPairs`. -/
theorem ovKeys_eq_map_fst (p : KernelProfile) :
    ovKeys p = (ovPairs p).map Prod.fst := by
  unfold ovKeys ovPairs
  rw [List.map_append, List.map_map]
  rfl

/-- Lookup in the overlaid dict: the profile's last assignment if the key
is overridden, the base dict otherwise. -/
theorem lookupAL_overlayConfig (p : KernelProfile) (base : List (Chars × Chars)) (k : Chars) :
    lookupAL k (overlayConfig p base) = (ovLast (ovPairs p) k).or (lookupAL k base) := by
  rw [overlayConfig_eq_foldl, lookupAL_foldl_insertAL]

/-- Folding dict assignments preserves key distinctness. -/
theorem nodupKeys_foldl_insertAL (ps : List (Chars × Chars)) (base : List (Chars × Chars))
    (h : nodupKeys base) :
    nodupKeys (ps.foldl (fun c kv => insertAL c kv.1 kv.2) base) := by
  induction ps generalizing base with
  | nil => exact h
  | cons kv t ih => exact ih _ (nodupKeys_insertAL _ _ _ h)

/-- Each parsing step preserves key distinctness. -/
theorem nodupKeys_parseConfigLine (al : List (Chars × Chars)) (line : Chars)
    (h : nodupKeys al) : nodupKeys (parseConfigLine al line) := by
  unfold parseConfigLine
  by_cases h1 : "CONFIG_".data.isPrefixOf (trimChars line) = true
  · rw [if_pos h1]
    cases hs : splitFirstEq (trimChars line) with
    | some kv => exact nodupKeys_insertAL _ _ _ h
    | none =>
      by_cases h2 : " is not set".data.isSuffixOf (trimChars line) = true
      · rw [if_pos h2]
        exact nodupKeys_insertAL _ _ _ h
      · rwa [if_neg h2]
  · rwa [if_neg h1]

/-- The parsed config dict has distinct keys. -/
theorem nodupKeys_parseConfig (content : Chars) : nodupKeys (parseConfig content) := by
  unfold parseConfig
  generalize splitNl content = ls
  have : ∀ (al : List (Chars × Chars)), nodupKeys al → nodupKeys (ls.foldl parseConfigLine al) := by
    induction ls with
    | nil => intro al h; exact h
    | cons l t ih => intro al h; exact ih _ (nodupKeys_parseConfigLine al l h)
  exact this [] (by simp [nodupKeys])

/-! Character-level facts about trimming, splitting and replacing. -/

/-- Trimming keeps only characters of the input. -/
theorem mem_trimChars (cs : Chars) (c : Char) (h : c ∈ trimChars cs) : c ∈ cs := by
  unfold trimChars rtrimChars trimLeftChars at h
  rw [List.mem_reverse] at h
  have h2 := (List.dropWhile_sublist Char.isWhitespace).subset h
  rw [List.mem_reverse] at h2
  exact (List.dropWhile_sublist Char.isWhitespace).subset h2

/-- Dropping a prefix under a predicate is the identity only when the head
already fails the predicate: the self-equal case of `dropWhile` on an
append forces the left part to be self-equal too. -/
theorem dropWhile_eq_self_of_append (p : Char → Bool) (xs ys : Chars)
    (h : (xs ++ ys).dropWhile p = xs ++ ys) : xs.dropWhile p = xs := by
  cases xs with
  | nil => rfl
  | cons c t =>
    by_cases hc : p c = true
    · exfalso
      rw [List.cons_append, List.dropWhile_cons, if_pos hc] at h
      have hlen := (List.dropWhile_sublist (l := t ++ ys) p).length_le
      rw [h] at hlen
      simp at hlen
    · rw [List.dropWhile_cons, if_neg hc]

/-- Right-trim stability passes to suffixes. -/
theorem rtrim_stable_suffix (a b : Chars) (h : rtrimChars (a ++ b) = a ++ b) :
    rtrimChars b = b := by
  unfold rtrimChars at h ⊢
  have h2 := congrArg List.reverse h
  rw [List.reverse_reverse] at h2
  rw [List.reverse_append] at h2
  have h3 := dropWhile_eq_self_of_append _ _ _ h2
  rw [h3, List.reverse_reverse]

/-- Right trim is idempotent. -/
theorem rtrim_rtrim (cs : Chars) : rtrimChars (rtrimChars cs) = rtrimChars cs := by
  have h : rtrimChars ([] ++ rtrimChars cs) = [] ++ rtrimChars cs := by
    simp only [List.nil_append]
    unfold rtrimChars
    rw [← List.reverse_inj]
    simp only [List.reverse_reverse]
    induction cs.reverse with
    | nil => rfl
    | cons c t ih =>
      by_cases hc : c.isWhitespace
      · simpa [List.dropWhile_cons, hc] using ih
      · simp [List.dropWhile_cons, hc]
  simpa using h

/-- The strip of any string is right-trim stable. -/
theorem rtrim_trimChars (cs : Chars) : rtrimChars (trimChars cs) = trimChars cs := by
  unfold trimChars
  exact rtrim_rtrim _

/-- A non-whitespace head survives a left trim. -/
theorem trimLeft_cons_of_not_ws (c : Char) (xs : Chars) (h : c.isWhitespace = false) :
    trimLeftChars (c :: xs) = c :: xs := by
  unfold trimLeftChars
  rw [List.dropWhile_cons, if_neg (by simp [h])]

/-- A non-whitespace head survives a right trim. -/
theorem rtrim_cons_of_not_ws (c : Char) (xs : Chars) (h : c.isWhitespace = false) :
    rtrimChars (c :: xs) = c :: rtrimChars xs := by
  unfold rtrimChars
  rw [show (c :: xs).reverse = xs.reverse ++ [c] by simp, List.dropWhile_append]
  by_cases he : (xs.reverse.dropWhile Char.isWhitespace).isEmpty = true
  · rw [if_pos he, List.isEmpty_iff.mp he]
    simp [List.dropWhile_cons, h]
  · rw [if_neg he]
    simp

/-- Right-trimming stops before a tail whose own right trim is
non-empty. -/
theorem rtrim_append (a b : Chars) (hb : rtrimChars b ≠ []) :
    rtrimChars (a ++ b) = a ++ rtrimChars b := by
  unfold rtrimChars at hb ⊢
  rw [List.reverse_append, List.dropWhile_append]
  have hne : ¬ (b.reverse.dropWhile Char.isWhitespace).isEmpty = true := by
    intro h
    rw [List.isEmpty_iff.mp h] at hb
    simp at hb
  rw [if_neg hne]
  simp

/-- Stripping `KEY=value` for a `CONFIG_`-prefixed key: the leading trim
is the identity and the trailing trim stops at the `=` sign, so only the
value is right-trimmed. -/
theorem trimChars_keyval (k v : Chars) (hk : "CONFIG_".data.isPrefixOf k = true) :
    trimChars (k ++ '=' :: v) = k ++ '=' :: rtrimChars v := by
  obtain ⟨t, ht⟩ := List.isPrefixOf_iff_prefix.mp hk
  have hkshape : k = 'C' :: ("ONFIG_".data ++ t) := by
    rw [← ht]; rfl
  have heq : rtrimChars ('=' :: v) = '=' :: rtrimChars v :=
    rtrim_cons_of_not_ws _ _ (by decide)
  unfold trimChars
  rw [hkshape, List.cons_append, trimLeft_cons_of_not_ws _ _ (by decide),
    ← List.cons_append, ← hkshape, rtrim_append k ('=' :: v) (by rw [heq]; simp), heq]

/-- Splitting at the first `=` after an `=`-free prefix. -/
theorem splitFirstEq_append (k v : Chars) (hk : ('=' : Char) ∉ k) :
    splitFirstEq (k ++ '=' :: v) = some (k, v) := by
  induction k with
  | nil => simp [splitFirstEq]
  | cons c t ih =>
    have hc : ¬ c = '=' := fun h => hk (h ▸ List.mem_cons_self c t)
    have ht : ('=' : Char) ∉ t := fun h => hk (List.mem_cons_of_mem c h)
    rw [List.cons_append]
    unfold splitFirstEq
    rw [if_neg hc, ih ht]

/-- Soundness of the first-`=` split. -/
theorem splitFirstEq_sound (l k v : Chars) (h : splitFirstEq l = some (k, v)) :
    l = k ++ '=' :: v ∧ ('=' : Char) ∉ k := by
  induction l generalizing k v with
  | nil => simp [splitFirstEq] at h
  | cons c t ih =>
    unfold splitFirstEq at h
    by_cases hc : c = '='
    · rw [if_pos hc] at h
      obtain ⟨hk, hv⟩ := Prod.mk.injEq .. ▸ (Option.some.injEq .. ▸ h)
      subst hc
      rw [← hk, ← hv]
      simp
    · rw [if_neg hc] at h
      cases hs : splitFirstEq t with
      | none => rw [hs] at h; simp at h
      | some kv =>
        obtain ⟨k', v'⟩ := kv
        rw [hs] at h
        simp only [Option.some.injEq, Prod.mk.injEq] at h
        obtain ⟨hk, hv⟩ := h
        obtain ⟨hl, hni⟩ := ih k' v' hs
        subst hv
        rw [← hk, hl]
        refine ⟨by simp, ?_⟩
        intro hmem
        rcases List.mem_cons.mp hmem with hmem | hmem
        · exact hc hmem.symm
        · exact hni hmem

/-- A prefix avoiding a separator stays within the part before it. -/
theorem isPrefixOf_append_cons (p a b : Chars) (c : Char) (hc : c ∉ p)
    (h : p.isPrefixOf (a ++ c :: b) = true) : p.isPrefixOf a = true := by
  induction p generalizing a with
  | nil => simp [List.isPrefixOf]
  | cons x t ih =>
    cases a with
    | nil =>
      exfalso
      rw [List.nil_append] at h
      have hx : x = c := by
        simp only [List.isPrefixOf, List.cons_append] at h
        have := (Bool.and_eq_true _ _).mp h
        simpa using this.1
      exact hc (hx ▸ List.mem_cons_self x t)
    | cons y a' =>
      rw [List.cons_append] at h
      simp only [List.isPrefixOf] at h ⊢
      have h2 := (Bool.and_eq_true _ _).mp h
      rw [h2.1]
      simpa using ih a' (fun hm => hc (List.mem_cons_of_mem x hm)) h2.2

/-- Segments produced by `splitNl` contain no newline. -/
theorem splitNl_no_newline (cs : Chars) : ∀ s ∈ splitNl cs, ('\n' : Char) ∉ s := by
  induction cs with
  | nil =>
    intro s hs
    simp only [splitNl, List.mem_singleton] at hs
    simp [hs]
  | cons c rest ih =>
    intro s hs
    by_cases hc : c = '\n'
    · rw [splitNl, if_pos hc] at hs
      rcases List.mem_cons.mp hs with hs | hs
      · simp [hs]
      · exact ih s hs
    · rw [splitNl, if_neg hc] at hs
      cases hsplit : splitNl rest with
      | nil =>
        rw [hsplit] at hs
        simp only [List.mem_singleton] at hs
        subst hs
        simp only [List.mem_singleton]
        exact fun h => hc h.symm
      | cons l ls =>
        rw [hsplit] at hs
        rcases List.mem_cons.mp hs with hs | hs
        · subst hs
          intro hmem
          rcases List.mem_cons.mp hmem with hmem | hmem
          · exact hc hmem.symm
          · exact ih l (hsplit ▸ List.mem_cons_self l ls) hmem
        · exact ih s (hsplit ▸ List.mem_cons_of_mem l hs)

/-- `splitNl` at the first newline after a newline-free segment. -/
theorem splitNl_append_cons (a rest : Chars) (ha : ('\n' : Char) ∉ a) :
    splitNl (a ++ '\n' :: rest) = a :: splitNl rest := by
  induction a with
  | nil => simp [splitNl]
  | cons c t ih =>
    have hc : ¬ c = '\n' := fun h => ha (h ▸ List.mem_cons_self c t)
    have ht : ('\n' : Char) ∉ t := fun h => ha (List.mem_cons_of_mem c h)
    rw [List.cons_append, splitNl, if_neg hc, ih ht]

/-- Characters of a replacement come from the input or the replacement
string. -/
theorem mem_replaceAllF (pat rep : Chars) (fuel : Nat) (cs : Chars) (c : Char)
    (h : c ∈ replaceAllF pat rep fuel cs) : c ∈ cs ∨ c ∈ rep := by
  induction fuel generalizing cs with
  | zero =>
    cases cs with
    | nil => simp [replaceAllF] at h
    | cons x t => exact Or.inl h
  | succ n ih =>
    cases cs with
    | nil => simp [replaceAllF] at h
    | cons x t =>
      unfold replaceAllF at h
      by_cases hp : pat.isPrefixOf (x :: t) = true ∧ 0 < pat.length
      · rw [if_pos hp] at h
        rcases List.mem_append.mp h with h | h
        · exact Or.inr h
        · rcases ih _ h with h | h
          · exact Or.inl (List.mem_of_mem_drop h)
          · exact Or.inr h
      · rw [if_neg hp] at h
        rcases List.mem_cons.mp h with h | h
        · exact Or.inl (h ▸ List.mem_cons_self x t)
        · rcases ih _ h with h | h
          · exact Or.inl (List.mem_cons_of_mem x h)
          · exact Or.inr h

/-- Same fact for `replaceAll`. -/
theorem mem_replaceAll (pat rep cs : Chars) (c : Char) (h : c ∈ replaceAll pat rep cs) :
    c ∈ cs ∨ c ∈ rep :=
  mem_replaceAllF pat rep cs.length cs c h

/-- The trailing empty segment of a rewritten file parses to nothing. -/
theorem parseConfigLine_nil (al : List (Chars × Chars)) : parseConfigLine al [] = al := rfl

/-! Invariants of the bindings produced by parsing, and the behavior of
re-parsing a serialized binding. -/

/-- What is true of every binding `parseConfig` produces: keys and values
are newline-free (they come from one line), and a binding not in the
comment-marker form has a `CONFIG_`-prefixed, `=`-free key and a
right-trim-stable value, so its serialization re-parses to itself. -/
def ParsedEntry (k v : Chars) : Prop :=
  ('\n' : Char) ∉ k ∧ ('\n' : Char) ∉ v ∧
  (v = "n".data ∨
    ("CONFIG_".data.isPrefixOf k = true ∧ ('=' : Char) ∉ k ∧ rtrimChars v = v))

/-- One parsing step only adds bindings satisfying `ParsedEntry`. -/
theorem parsedEntry_step (al : List (Chars × Chars)) (raw : Chars)
    (hinv : ∀ k v, lookupAL k al = some v → ParsedEntry k v)
    (hnl : ('\n' : Char) ∉ raw) :
    ∀ k v, lookupAL k (parseConfigLine al raw) = some v → ParsedEntry k v := by
  intro k v hkv
  have hnltrim : ('\n' : Char) ∉ trimChars raw := fun h => hnl (mem_trimChars _ _ h)
  simp only [parseConfigLine] at hkv
  by_cases h1 : "CONFIG_".data.isPrefixOf (trimChars raw) = true
  · rw [if_pos h1] at hkv
    cases hs : splitFirstEq (trimChars raw) with
    | some kv0 =>
      obtain ⟨k0, v0⟩ := kv0
      rw [hs] at hkv
      rw [lookupAL_insertAL] at hkv
      by_cases hk : k0 = k
      · subst hk
        have hv : v0 = v := by simpa using hkv
        subst hv
        obtain ⟨hline, hni⟩ := splitFirstEq_sound _ _ _ hs
        refine ⟨?_, ?_, Or.inr ⟨?_, hni, ?_⟩⟩
        · intro h
          exact hnltrim (by rw [hline]; exact List.mem_append_left _ h)
        · intro h
          exact hnltrim (by
            rw [hline]
            exact List.mem_append_right _ (List.mem_cons_of_mem _ h))
        · rw [hline] at h1
          exact isPrefixOf_append_cons _ _ _ _ (by decide) h1
        · have hsta : rtrimChars ((k0 ++ ['=']) ++ v0) = (k0 ++ ['=']) ++ v0 := by
            have hx : (k0 ++ ['=']) ++ v0 = trimChars raw := by rw [hline]; simp
            rw [hx]
            exact rtrim_trimChars raw
          exact rtrim_stable_suffix _ _ hsta
      · rw [if_neg hk] at hkv
        exact hinv k v hkv
    | none =>
      rw [hs] at hkv
      by_cases h2 : " is not set".data.isSuffixOf (trimChars raw) = true
      · rw [if_pos h2, lookupAL_insertAL] at hkv
        by_cases hk : replaceAll " is not set".data []
            (replaceAll "# ".data [] (trimChars raw)) = k
        · subst hk
          have hv : "n".data = v := by simpa using hkv
          subst hv
          refine ⟨?_, by decide, Or.inl rfl⟩
          intro h
          rcases mem_replaceAll _ _ _ _ h with h | h
          · rcases mem_replaceAll _ _ _ _ h with h | h
            · exact hnltrim h
            · simp at h
          · simp at h
        · rw [if_neg hk] at hkv
          exact hinv k v hkv
      · rw [if_neg h2] at hkv
        exact hinv k v hkv
  · rw [if_neg h1] at hkv
    exact hinv k v hkv

/-- Every binding of a parsed config file satisfies `ParsedEntry`. -/
theorem parsedEntry_parseConfig (content : Chars) :
    ∀ k v, lookupAL k (parseConfig content) = some v → ParsedEntry k v := by
  have main : ∀ (ls : List Chars), (∀ s ∈ ls, ('\n' : Char) ∉ s) →
      ∀ (al : List (Chars × Chars)),
      (∀ k v, lookupAL k al = some v → ParsedEntry k v) →
      ∀ k v, lookupAL k (ls.foldl parseConfigLine al) = some v → ParsedEntry k v := by
    intro ls
    induction ls with
    | nil => intro _ al h; exact h
    | cons l t ih =>
      intro hlines al h
      rw [List.foldl_cons]
      exact ih (fun s hs => hlines s (List.mem_cons_of_mem l hs))
        _ (parsedEntry_step al l h (hlines l (List.mem_cons_self l t)))
  exact main (splitNl content) (splitNl_no_newline content) []
    (by intro k v h; simp [lookupAL] at h)

/-- The serialized line of a binding, without its trailing newline. -/
def configLineBody (kv : Chars × Chars) : Chars :=
  if kv.2 = "n".data then "# ".data ++ kv.1 ++ " is not set".data
  else kv.1 ++ "=".data ++ kv.2

/-- A serialized line is its body plus a newline. -/
theorem configLineFor_eq_body (kv : Chars × Chars) :
    configLineFor kv = configLineBody kv ++ ['\n'] := by
  unfold configLineFor configLineBody
  by_cases h : kv.2 = "n".data
  · rw [if_pos h, if_pos h]
    rw [show (" is not set\n".data : Chars) = " is not set".data ++ ['\n'] from rfl]
    simp
  · rw [if_neg h, if_neg h]

/-- The serialized comment form re-parses to nothing: its body keeps its
leading `#` through the strip and so fails the `CONFIG_` prefix test. -/
theorem parse_body_comment (k v : Chars) (hv : v = "n".data)
    (acc : List (Chars × Chars)) :
    parseConfigLine acc (configLineBody (k, v)) = acc := by
  subst hv
  unfold configLineBody
  rw [if_pos rfl]
  have hshape : ("# ".data ++ k ++ " is not set".data : Chars) =
      '#' :: (' ' :: (k ++ " is not set".data)) := by simp
  simp only [parseConfigLine, hshape]
  unfold trimChars
  rw [trimLeft_cons_of_not_ws _ _ (by decide), rtrim_cons_of_not_ws _ _ (by decide)]
  have hC : (('C' == '#') : Bool) = false := by decide
  simp [List.isPrefixOf, hC]

/-- The serialized `KEY=value` form of a well-shaped binding re-parses to
an assignment of the same key (with the value right-trimmed). -/
theorem parse_body_keyval (k v : Chars) (hk : "CONFIG_".data.isPrefixOf k = true)
    (he : ('=' : Char) ∉ k) (hv : v ≠ "n".data) (acc : List (Chars × Chars)) :
    parseConfigLine acc (configLineBody (k, v)) = insertAL acc k (rtrimChars v) := by
  unfold configLineBody
  rw [if_neg hv]
  have hbody : (k ++ "=".data ++ v : Chars) = k ++ '=' :: v := by simp
  rw [hbody]
  simp only [parseConfigLine]
  rw [trimChars_keyval k v hk]
  have hpre : "CONFIG_".data.isPrefixOf (k ++ '=' :: rtrimChars v) = true :=
    List.isPrefixOf_iff_prefix.mpr
      ((List.isPrefixOf_iff_prefix.mp hk).trans (List.prefix_append k ('=' :: rtrimChars v)))
  rw [if_pos hpre, splitFirstEq_append k (rtrimChars v) he]

/-- A binding whose serialized body either re-parses to nothing or
re-assigns its own key, and whose body stays on one line. -/
def EntryGood (kv : Chars × Chars) : Prop :=
  (('\n' : Char) ∉ configLineBody kv) ∧
  ((∀ acc, parseConfigLine acc (configLineBody kv) = acc) ∨
   (∀ acc, ∃ w, parseConfigLine acc (configLineBody kv) = insertAL acc kv.1 w))

/-- Parsing the bodies of good entries never binds an absent key. -/
theorem lookup_parse_bodies_of_not_mem (s : List (Chars × Chars)) (k : Chars)
    (hg : ∀ kv ∈ s, EntryGood kv) (hk : k ∉ s.map Prod.fst) :
    ∀ acc, lookupAL k (s.foldl (fun acc kv => parseConfigLine acc (configLineBody kv)) acc) =
      lookupAL k acc := by
  induction s with
  | nil => intro acc; rfl
  | cons kv t ih =>
    intro acc
    have hk1 : kv.1 ≠ k := by
      intro h
      exact hk (h ▸ List.mem_map_of_mem Prod.fst (List.mem_cons_self kv t))
    have hkt : k ∉ t.map Prod.fst := fun h => hk (by
      rw [List.map_cons]
      exact List.mem_cons_of_mem _ h)
    have hgt : ∀ kv' ∈ t, EntryGood kv' := fun kv' h => hg kv' (List.mem_cons_of_mem kv h)
    rw [List.foldl_cons]
    rcases (hg kv (List.mem_cons_self kv t)).2 with hbe | hbe
    · rw [hbe acc, ih hgt hkt acc]
    · obtain ⟨w, hw⟩ := hbe acc
      rw [hw, ih hgt hkt _, lookupAL_insertAL, if_neg hk1]

/-- Parsing the bodies of good, key-distinct entries re-binds a stable
entry's key to its value. -/
theorem lookup_parse_bodies_of_stable (s : List (Chars × Chars)) (k v : Chars)
    (hg : ∀ kv ∈ s, EntryGood kv) (hnodup : nodupKeys s) (hmem : (k, v) ∈ s)
    (hstable : ∀ acc, parseConfigLine acc (configLineBody (k, v)) = insertAL acc k v) :
    ∀ acc, lookupAL k (s.foldl (fun acc kv => parseConfigLine acc (configLineBody kv)) acc) =
      some v := by
  induction s with
  | nil => simp at hmem
  | cons kv t ih =>
    intro acc
    unfold nodupKeys at hnodup
    rw [List.map_cons, List.nodup_cons] at hnodup
    have hgt : ∀ kv' ∈ t, EntryGood kv' := fun kv' h => hg kv' (List.mem_cons_of_mem kv h)
    rw [List.foldl_cons]
    rcases List.mem_cons.mp hmem with hmem1 | hmem1
    · have hkv1 : kv.1 = k := by rw [← hmem1]
      have hkt : k ∉ t.map Prod.fst := hkv1 ▸ hnodup.1
      rw [← hmem1, hstable acc,
        lookup_parse_bodies_of_not_mem t k hgt hkt _, lookupAL_insertAL, if_pos rfl]
    · have hk1 : kv.1 ≠ k := by
        intro h
        exact hnodup.1 (h ▸ List.mem_map_of_mem Prod.fst hmem1)
      exact ih hgt hnodup.2 hmem1 _

/-- `apply_to_config` as parse–overlay–serialize. -/
def serializeConfig (l : List (Chars × Chars)) : Chars :=
  ((sortPairs l).map configLineFor).flatten

/-- `apply_to_config` factored through `serializeConfig`. -/
theorem apply_to_config_eq (p : KernelProfile) (content : Chars) :
    apply_to_config p content = serializeConfig (overlayConfig p (parseConfig content)) := rfl

/-- Splitting a serialization of one-line bodies recovers the bodies (plus
the final empty segment). -/
theorem splitNl_serialize (s : List (Chars × Chars))
    (hnl : ∀ kv ∈ s, ('\n' : Char) ∉ configLineBody kv) :
    splitNl ((s.map configLineFor).flatten) = s.map configLineBody ++ [[]] := by
  induction s with
  | nil => rfl
  | cons kv t ih =>
    rw [List.map_cons, List.flatten_cons, configLineFor_eq_body,
      show (configLineBody kv ++ ['\n']) ++ (t.map configLineFor).flatten =
        configLineBody kv ++ '\n' :: (t.map configLineFor).flatten by simp,
      splitNl_append_cons _ _ (hnl kv (List.mem_cons_self kv t)),
      ih (fun kv' h => hnl kv' (List.mem_cons_of_mem kv h))]
    rfl

/-- Parsing a serialization folds the line parser over the bodies. -/
theorem parseConfig_serialize (m : List (Chars × Chars))
    (hnl : ∀ kv ∈ sortPairs m, ('\n' : Char) ∉ configLineBody kv) :
    parseConfig (serializeConfig m) =
      (sortPairs m).foldl (fun acc kv => parseConfigLine acc (configLineBody kv)) [] := by
  unfold parseConfig serializeConfig
  rw [splitNl_serialize (sortPairs m) hnl, List.foldl_append]
  rw [show ∀ acc, List.foldl parseConfigLine acc [[]] = acc from fun acc => parseConfigLine_nil acc]
  rw [List.foldl_map]

/-- The well-formedness the catalog profiles satisfy: override keys start
with `CONFIG_` and contain no `=` or newline, override values contain no
newline. -/
def WellFormedOptions (p : KernelProfile) : Prop :=
  ∀ kv ∈ p.config_options,
    "CONFIG_".data.isPrefixOf kv.1 = true ∧ ('=' : Char) ∉ kv.1 ∧
    ('\n' : Char) ∉ kv.1 ∧ ('\n' : Char) ∉ kv.2

/-- Module names contain no newline. -/
def WellFormedModules (p : KernelProfile) : Prop :=
  ∀ m ∈ p.modules_to_disable, ('\n' : Char) ∉ m

instance (p : KernelProfile) : Decidable (WellFormedOptions p) := by
  unfold WellFormedOptions
  infer_instance

instance (p : KernelProfile) : Decidable (WellFormedModules p) := by
  unfold WellFormedModules
  infer_instance

/-- An entry with a `CONFIG_`-prefixed, `=`-free key and newline-free key
and value is good. -/
theorem entryGood_of_wf (k v : Chars) (hpre : "CONFIG_".data.isPrefixOf k = true)
    (heq : ('=' : Char) ∉ k) (hnk : ('\n' : Char) ∉ k) (hnv : ('\n' : Char) ∉ v) :
    EntryGood (k, v) := by
  by_cases hv : v = "n".data
  · refine ⟨?_, Or.inl (parse_body_comment k v hv)⟩
    unfold configLineBody
    rw [if_pos hv]
    intro h
    rcases List.mem_append.mp h with h | h
    · rcases List.mem_append.mp h with h | h
      · simp at h
      · exact hnk h
    · simp at h
  · refine ⟨?_, Or.inr (fun acc => ⟨rtrimChars v, parse_body_keyval k v hpre heq hv acc⟩)⟩
    unfold configLineBody
    rw [if_neg hv]
    intro h
    rcases List.mem_append.mp h with h | h
    · rcases List.mem_append.mp h with h | h
      · exact hnk h
      · simp at h
    · exact hnv h

/-- An entry in comment form with a newline-free key is good. -/
theorem entryGood_of_n (k v : Chars) (hv : v = "n".data) (hnk : ('\n' : Char) ∉ k) :
    EntryGood (k, v) := by
  refine ⟨?_, Or.inl (parse_body_comment k v hv)⟩
  unfold configLineBody
  rw [if_pos hv]
  intro h
  rcases List.mem_append.mp h with h | h
  · rcases List.mem_append.mp h with h | h
    · simp at h
    · exact hnk h
  · simp at h

/-- Every binding of the overlaid map of a well-formed profile is good. -/
theorem entryGood_overlay (p : KernelProfile) (content : Chars)
    (hopts : WellFormedOptions p) (hmods : WellFormedModules p) :
    ∀ kv ∈ overlayConfig p (parseConfig content), EntryGood kv := by
  intro kv hkv
  obtain ⟨a, b⟩ := kv
  have hnodupb : nodupKeys (parseConfig content) := nodupKeys_parseConfig content
  have hnodupm : nodupKeys (overlayConfig p (parseConfig content)) := by
    rw [overlayConfig_eq_foldl]
    exact nodupKeys_foldl_insertAL _ _ hnodupb
  have hlk : lookupAL a (overlayConfig p (parseConfig content)) = some b :=
    (mem_iff_lookupAL _ _ _ hnodupm).mp hkv
  rw [lookupAL_overlayConfig] at hlk
  cases hov : ovLast (ovPairs p) a with
  | some w =>
    rw [hov] at hlk
    have hw : w = b := by simpa using hlk
    subst hw
    have hovmem := ovLast_eq_some_mem _ _ _ hov
    unfold ovPairs at hovmem
    rcases List.mem_append.mp hovmem with hmem | hmem
    · obtain ⟨hpre, heq, hnk, hnv⟩ := hopts _ hmem
      exact entryGood_of_wf a w hpre heq hnk hnv
    · obtain ⟨m, hmmem, hmeq⟩ := List.mem_map.mp hmem
      have ha : "CONFIG_".data ++ m = a := congrArg Prod.fst hmeq
      have hw2 : "n".data = w := congrArg Prod.snd hmeq
      refine entryGood_of_n a w hw2.symm ?_
      rw [← ha]
      intro h
      rcases List.mem_append.mp h with h | h
      · simp at h
      · exact hmods m hmmem h
  | none =>
    rw [hov] at hlk
    simp only [Option.none_or] at hlk
    obtain ⟨hnk, hnv, hor⟩ := parsedEntry_parseConfig content a b hlk
    rcases hor with h | ⟨hpre, heq, _⟩
    · exact entryGood_of_n a b h hnk
    · exact entryGood_of_wf a b hpre heq hnk hnv

/-- Re-parsing the rewritten file and overlaying the profile again does
not change any key's binding. -/
theorem lookup_reparse (p : KernelProfile) (content : Chars)
    (hopts : WellFormedOptions p) (hmods : WellFormedModules p)
    (hn : ∀ kv ∈ parseConfig content, kv.2 = "n".data → kv.1 ∈ ovKeys p) (k : Chars) :
    lookupAL k (overlayConfig p (parseConfig (apply_to_config p content))) =
      lookupAL k (overlayConfig p (parseConfig content)) := by
  have hnodupb : nodupKeys (parseConfig content) := nodupKeys_parseConfig content
  have hnodupm1 : nodupKeys (overlayConfig p (parseConfig content)) := by
    rw [overlayConfig_eq_foldl]
    exact nodupKeys_foldl_insertAL _ _ hnodupb
  have hgood := entryGood_overlay p content hopts hmods
  have hgoodS : ∀ kv ∈ sortPairs (overlayConfig p (parseConfig content)), EntryGood kv :=
    fun kv h => hgood kv ((sortPairs_perm _).mem_iff.mp h)
  have hnl : ∀ kv ∈ sortPairs (overlayConfig p (parseConfig content)),
      ('\n' : Char) ∉ configLineBody kv := fun kv h => (hgoodS kv h).1
  have hreparse : parseConfig (apply_to_config p content) =
      (sortPairs (overlayConfig p (parseConfig content))).foldl
        (fun acc kv => parseConfigLine acc (configLineBody kv)) [] := by
    rw [apply_to_config_eq]
    exact parseConfig_serialize _ hnl
  rw [lookupAL_overlayConfig, lookupAL_overlayConfig]
  cases hov : ovLast (ovPairs p) k with
  | some w => rfl
  | none =>
    simp only [Option.none_or]
    rw [hreparse]
    have hkov : k ∉ ovKeys p := by
      rw [ovKeys_eq_map_fst]
      exact (ovLast_eq_none_iff _ _).mp hov
    cases hlk : lookupAL k (parseConfig content) with
    | none =>
      have hm1k : lookupAL k (overlayConfig p (parseConfig content)) = none := by
        rw [lookupAL_overlayConfig, hov, hlk]
        rfl
      have hnomem : k ∉ (overlayConfig p (parseConfig content)).map Prod.fst :=
        (lookupAL_eq_none_iff _ _).mp hm1k
      have hks : k ∉ (sortPairs (overlayConfig p (parseConfig content))).map Prod.fst :=
        fun h => hnomem (((sortPairs_perm _).map Prod.fst).mem_iff.mp h)
      rw [lookup_parse_bodies_of_not_mem _ k hgoodS hks []]
      rfl
    | some v =>
      have hv_ne : v ≠ "n".data := by
        intro hveq
        subst hveq
        have hmemb : (k, "n".data) ∈ parseConfig content :=
          (mem_iff_lookupAL _ _ _ hnodupb).mpr hlk
        exact hkov (hn (k, "n".data) hmemb rfl)
      obtain ⟨hnk, hnv, hor⟩ := parsedEntry_parseConfig content k v hlk
      rcases hor with h | ⟨hpre, heq, hrt⟩
      · exact absurd h hv_ne
      · have hstable : ∀ acc, parseConfigLine acc (configLineBody (k, v)) = insertAL acc k v := by
          intro acc
          rw [parse_body_keyval k v hpre heq hv_ne acc, hrt]
        have hm1k : lookupAL k (overlayConfig p (parseConfig content)) = some v := by
          rw [lookupAL_overlayConfig, hov, hlk]
          rfl
        have hmem : (k, v) ∈ overlayConfig p (parseConfig content) :=
          (mem_iff_lookupAL _ _ _ hnodupm1).mpr hm1k
        have hmemS : (k, v) ∈ sortPairs (overlayConfig p (parseConfig content)) :=
          (sortPairs_perm _).mem_iff.mpr hmem
        have hnodupS : nodupKeys (sortPairs (overlayConfig p (parseConfig content))) := by
          unfold nodupKeys
          exact (((sortPairs_perm _).map Prod.fst).nodup_iff).mpr hnodupm1
        rw [lookup_parse_bodies_of_stable _ k v hgoodS hnodupS hmemS hstable []]

/-- Claim C6, counterexample: applying a profile twice is not the same as
applying it once.  On the one-line file `CONFIG_X=n`, a profile that does
not mention `CONFIG_X` first rewrites the line to `# CONFIG_X is not set`
(value `n` is serialized as the comment form); the second application
drops that comment line (it fails the `CONFIG_` prefix test), leaving an
empty file. -/
theorem apply_to_config_not_idempotent_cex :
    apply_to_config ⟨.CUSTOM, "Custom".data, "custom".data, [], []⟩
        (apply_to_config ⟨.CUSTOM, "Custom".data, "custom".data, [], []⟩
          "CONFIG_X=n\n".data) ≠
      apply_to_config ⟨.CUSTOM, "Custom".data, "custom".data, [], []⟩
        "CONFIG_X=n\n".data := by decide

/-- Claim C6, amended: `apply_to_config` is idempotent for every config
file and every profile whose override keys start with `CONFIG_` and
contain no `=` or newline, whose override values contain no newline, and
whose module names contain no newline (as all catalog profiles do) —
provided every key that parses to value `n` from the file (a `CONFIG_K=n`
line, whose rewrite is the comment form the parser then drops) is among
the profile's override keys or disabled modules.  Applying the profile
twice then yields a byte-identical file to applying it once. -/
theorem apply_to_config_idempotent (p : KernelProfile) (content : Chars)
    (hopts : WellFormedOptions p) (hmods : WellFormedModules p)
    (hn : ∀ kv ∈ parseConfig content, kv.2 = "n".data → kv.1 ∈ ovKeys p) :
    apply_to_config p (apply_to_config p content) = apply_to_config p content := by
  have hnodupb1 : nodupKeys (parseConfig content) := nodupKeys_parseConfig content
  have hnodupm1 : nodupKeys (overlayConfig p (parseConfig content)) := by
    rw [overlayConfig_eq_foldl]
    exact nodupKeys_foldl_insertAL _ _ hnodupb1
  have hnodupb2 : nodupKeys (parseConfig (apply_to_config p content)) :=
    nodupKeys_parseConfig _
  have hnodupm2 : nodupKeys (overlayConfig p (parseConfig (apply_to_config p content))) := by
    rw [overlayConfig_eq_foldl]
    exact nodupKeys_foldl_insertAL _ _ hnodupb2
  have hmemiff : ∀ x : Chars × Chars,
      x ∈ overlayConfig p (parseConfig (apply_to_config p content)) ↔
      x ∈ overlayConfig p (parseConfig content) := by
    intro x
    obtain ⟨a, b⟩ := x
    rw [mem_iff_lookupAL _ _ _ hnodupm2, mem_iff_lookupAL _ _ _ hnodupm1,
      lookup_reparse p content hopts hmods hn a]
  have hsort := sortPairs_eq_of_lookup_eq _ _ hnodupm2 hnodupm1 hmemiff
  exact congrArg (fun l => (l.map configLineFor).flatten) hsort

/-- Witness for `apply_to_config_idempotent` at a concrete profile and
file. -/
theorem apply_to_config_idempotent_witness :
    WellFormedOptions ⟨.GAMING, "Gaming".data, "gaming".data,
        [("CONFIG_FOO".data, "y".data), ("CONFIG_BAR".data, "n".data)], ["BAZ".data]⟩ ∧
    WellFormedModules ⟨.GAMING, "Gaming".data, "gaming".data,
        [("CONFIG_FOO".data, "y".data), ("CONFIG_BAR".data, "n".data)], ["BAZ".data]⟩ ∧
    apply_to_config ⟨.GAMING, "Gaming".data, "gaming".data,
        [("CONFIG_FOO".data, "y".data), ("CONFIG_BAR".data, "n".data)], ["BAZ".data]⟩
      (apply_to_config ⟨.GAMING, "Gaming".data, "gaming".data,
        [("CONFIG_FOO".data, "y".data), ("CONFIG_BAR".data, "n".data)], ["BAZ".data]⟩
        "CONFIG_FOO=m\nCONFIG_BAR=n\n# CONFIG_OLD is not set\n".data) =
    apply_to_config ⟨.GAMING, "Gaming".data, "gaming".data,
        [("CONFIG_FOO".data, "y".data), ("CONFIG_BAR".data, "n".data)], ["BAZ".data]⟩
      "CONFIG_FOO=m\nCONFIG_BAR=n\n# CONFIG_OLD is not set\n".data :=
  ⟨by decide, by decide,
    apply_to_config_idempotent
      ⟨.GAMING, "Gaming".data, "gaming".data,
        [("CONFIG_FOO".data, "y".data), ("CONFIG_BAR".data, "n".data)], ["BAZ".data]⟩
      "CONFIG_FOO=m\nCONFIG_BAR=n\n# CONFIG_OLD is not set\n".data
      (by decide) (by decide) (by decide)⟩

end KernelInstaller
